import Mathlib

/-!
Verification of the command console runtime of `src/core/common/commands.cpp`:
the shell-like tokenizer (`command_words`), the flag/positional splitter
(`parse_options`), the dispatch boundary (`Commands::system`) and the
handlers (`echo`, `chan`, `filter`, `get`, `nslookup`, `helo`, `log`).

Modelling conventions:
* Strings are modelled by Lean `String` (a wrapper around `List Char`); the
  tokenizer core works on `List Char` directly.
* A C++ `GeneralException` thrown by a piece of code is modelled by the
  `Except.error`/`Option String` error channel carrying `e.what()`.
* The output stream is modelled by a trace of `Out` events: `Out.line s` is a
  line-oriented write (`writeLine`/`writeLineF`, which appends a terminator)
  and `Out.str s` a raw write (`writeString`/`writeStringF`).
* External collaborators that live outside `src/` (DNS, HTTP, the channel and
  filter tables, the log buffer's thread, the PCP session) are supplied by an
  `Env` of oracles; the control flow around them is translated from the source.
* `command_words` iterates `p` over the string with an unguarded
  `do { p++ } while (*p == ' ')` loop.  When the input ends in spaces this
  dereferences `cmdline.end()`.  The model gives that read the value the
  null-terminated `std::string` buffer yields in practice (`'\0'`, which is
  not a space, so the loop stops) and additionally records in a Boolean flag
  that the out-of-bounds read happened (`command_words_oob`).
-/

/-- One event written to the output stream: `line` is a line-oriented write
(appends a line terminator), `str` is a raw write. -/
inductive Out where
  | line (s : String)
  | str (s : String)
  deriving DecidableEq

/-- Control position inside `command_words`' character loop:
`outside` = top of the `while (p != cmdline.end())` loop,
`skipping` = inside the `do { p++ } while (*p == ' ')` loop,
`inQuote` = inside the `while (true)` quoted-region loop,
`inEscape` = just consumed a `\` inside the quoted region. -/
inductive TMode where
  | outside
  | skipping
  | inQuote
  | inEscape
  deriving DecidableEq

/-- `if (word.size()) { words.push_back(word); word = ""; }` -/
def flushWord (word : List Char) (words : List (List Char)) : List (List Char) :=
  if word ≠ [] then words ++ [word] else words

/-- The character loop of `command_words` (commands.cpp lines 35-75), one
constructor case per character read, as a state machine over the remaining
input.  At end of input in `skipping` mode the C++ `do/while` dereferences
`cmdline.end()`; the returned Boolean records that this out-of-bounds read
happened (the read value `'\0'` is not a space, so the loop exits there). -/
def tokRun : List Char → TMode → List Char → List (List Char) → Bool →
    Except String (List (List Char) × Bool)
  | [], mode, word, words, oob =>
    match mode with
    | .inQuote => .error "Premature end of quoted string"
    | .inEscape => .error "Premature end of escaped character"
    | .skipping => .ok (flushWord word words, true)
    | .outside => .ok (flushWord word words, oob)
  | c :: rest, mode, word, words, oob =>
    match mode with
    | .inQuote =>
      if c = '\\' then tokRun rest .inEscape word words oob
      else if c = '"' then tokRun rest .outside [] (words ++ [word]) oob
      else tokRun rest .inQuote (word ++ [c]) words oob
    | .inEscape => tokRun rest .inQuote (word ++ [c]) words oob
    | .outside | .skipping =>
      if c = ' ' then tokRun rest .skipping [] (flushWord word words) oob
      else if c = '"' then tokRun rest .inQuote word words oob
      else tokRun rest .outside (word ++ [c]) words oob

/-- `command_words` (commands.cpp lines 30-77): tokenize a command line,
throwing `FormatException` on a premature end of input. -/
def command_words (cmdline : String) : Except String (List String) :=
  match tokRun cmdline.data .outside [] [] false with
  | .error e => .error e
  | .ok r => .ok (r.1.map String.mk)

/-- Whether tokenizing `cmdline` performs the out-of-bounds read of
`cmdline.end()` in the space-skipping `do/while` loop. -/
def command_words_oob (cmdline : String) : Bool :=
  match tokRun cmdline.data .outside [] [] false with
  | .error _ => false
  | .ok r => r.2

/-- Final state of the spec's quoting scanner at end of input. -/
inductive ScanEnd where
  | ok
  | inQuote
  | afterBackslash
  deriving DecidableEq

/-- Whether the spec's scanner is inside a quoted region. -/
inductive QState where
  | outside
  | inside
  deriving DecidableEq

/-- Modelled from the spec: §4.1's failure conditions, independent of the
implementation — scan the input tracking only whether we are inside a quoted
region, where `"` toggles the region and, inside it, `\` consumes the next
character; report how the input ends: outside a quote (`ok`), inside a quoted
region (`inQuote`), or immediately after a `\` with no following character
(`afterBackslash`). -/
def specScan : List Char → QState → ScanEnd
  | [], .outside => .ok
  | [], .inside => .inQuote
  | c :: rest, .outside => specScan rest (if c = '"' then .inside else .outside)
  | c :: rest, .inside =>
    if c = '\\' then
      match rest with
      | [] => .afterBackslash
      | _ :: rest2 => specScan rest2 .inside
    else specScan rest (if c = '"' then .outside else .inside)

/-- The spec scanner's verdict on the input remaining in a given `tokRun`
mode (the `inEscape` mode has already consumed the backslash). -/
def modeScan : TMode → List Char → ScanEnd
  | .outside, l => specScan l .outside
  | .skipping, l => specScan l .outside
  | .inQuote, l => specScan l .inside
  | .inEscape, [] => .afterBackslash
  | .inEscape, _ :: rest => specScan rest .inside

/-- `options[k] = true` on the `std::map<std::string, bool>`, kept as the list
of flag names present. -/
def insertFlag (options : List String) (k : String) : List String :=
  if k ∈ options then options else options ++ [k]

/-- `parse_options` (commands.cpp lines 7-28): split the argument tokens into
the set of present flags and the ordered positional arguments; `--` ends
option processing and appends every later token verbatim. -/
def parse_options (args option_names : List String) : List String × List String :=
  match args with
  | [] => ([], [])
  | a :: rest =>
    if a = "--" then ([], rest)
    else if a ∈ option_names then
      let r := parse_options rest option_names
      (insertFlag r.1 a, r.2)
    else
      let r := parse_options rest option_names
      (r.1, a :: r.2)

/-- `str::join` (string utility collaborator): join with a separator. -/
def strJoin (sep : String) : List String → String
  | [] => ""
  | [w] => w
  | w :: ws => w ++ sep ++ strJoin sep ws

/-- Character-level join with a single space, for round-trip statements. -/
def joinChars : List (List Char) → List Char
  | [] => []
  | [w] => w
  | w :: ws => w ++ ' ' :: joinChars ws

/-- Modelled from the spec: the event-source collaborator's listener registry
(`addListener`/`removeListener` of §6), kept as the subscription ids handed
out so far and the currently registered ones. -/
structure LogBufState where
  nextId : Nat
  listeners : List Nat
  deriving DecidableEq

/-- `sys->logBuf->addListener(cb)`: register, returning a fresh id. -/
def addListener (st : LogBufState) : Nat × LogBufState :=
  (st.nextId, ⟨st.nextId + 1, st.listeners ++ [st.nextId]⟩)

/-- `sys->logBuf->removeListener(id)`: deregister one subscription. -/
def removeListener (id : Nat) (st : LogBufState) : LogBufState :=
  ⟨st.nextId, st.listeners.erase id⟩

/-- The listener callback's formatting (commands.cpp line 210):
`str::format("[%s] %s\n", LogBuffer::getTypeStr(type), msg)`; an event is the
pair (type string, message). -/
def logFmt (ev : String × String) : String :=
  "[" ++ ev.1 ++ "] " ++ ev.2 ++ "\n"

/-- One filter entry of the server-table collaborator: its pattern and the
four flag bits tested at commands.cpp lines 179-190. -/
structure ServFilter where
  pattern : String
  ban : Bool
  network : Bool
  direct : Bool
  priv : Bool

/-- The external collaborators of the handlers (everything `commands.cpp`
calls that lives outside this file's scope), plus the schedule under which an
invocation of the `log` handler runs: `cancel i` is the value of the
cancellation predicate at its `i`-th poll, `logArrive i` the events the
producer thread enqueues between poll `i-1`'s drain and poll `i` (bucket `0`
holds the events enqueued before the first poll), `writeFails c` an optional
exception thrown by `stream.writeString c`, and `logFuel` a bound on the
number of polls modelled (the loop outruns any fuel if cancellation never
arrives). -/
structure Env where
  tryParse : String → Option String
  getHostnameByAddress : String → Except String (Option String)
  getIPAddresses : String → Except String (List String)
  httpGet : String → Except String String
  heloSession : String → Bool → List Out × Option String
  channels : List (String × String × String)
  filters : List ServFilter
  cancel : Nat → Bool
  logArrive : Nat → List (String × String)
  writeFails : String → Option String
  logFuel : Nat
  logBuf : LogBufState

/-- The drain of the whole queue (commands.cpp lines 220-225): write each
chunk in order with `stream.writeString`; a write that throws leaves the
remaining chunks in the queue and propagates.  Returns (events written,
chunks left in the queue, exception). -/
def drainQueue (writeFails : String → Option String) :
    List String → List Out × List String × Option String
  | [] => ([], [], none)
  | c :: rest =>
    match writeFails c with
    | some e => ([], c :: rest, some e)
    | none =>
      let r := drainQueue writeFails rest
      (Out.str c :: r.1, r.2.1, r.2.2)

/-- The `while (!cancel())` loop of `Commands::log` (commands.cpp lines
216-228), one fuel unit per poll: merge the bucket of newly arrived events
into the queue, poll cancellation, and if it is false drain the whole queue
and sleep.  Returns `none` when the fuel runs out before cancellation,
otherwise (events written, chunks still queued at exit, exception escaping
the loop). -/
def logLoop (env : Env) : Nat → Nat → List String → Option (List Out × List String × Option String)
  | 0, _, _ => none
  | fuel + 1, i, queue =>
    let q := queue ++ (env.logArrive i).map logFmt
    if env.cancel i then some ([], q, none)
    else
      let d := drainQueue env.writeFails q
      match d.2.2 with
      | some e => some (d.1, d.2.1, some e)
      | none =>
        match logLoop env fuel (i + 1) [] with
        | none => none
        | some r2 => some (d.1 ++ r2.1, r2.2.1, r2.2.2)

/-- Result of one invocation of the `log` handler: the events it wrote, the
chunks still sitting in its queue when it returned, the exception escaping it
(if any), and the listener registry after its cleanup ran. -/
structure LogResult where
  out : List Out
  leftover : List String
  err : Option String
  buf : LogBufState
  deriving DecidableEq

/-- The events the `log` handler's first `k` drains write when its queue
starts empty at poll `i`: each drain `j < k` writes the bucket that arrived
before it, formatted by the callback, in enqueue order. -/
def logSpecOut (env : Env) : Nat → Nat → List Out
  | _, 0 => []
  | i, k + 1 =>
    (env.logArrive i).map (fun ev => Out.str (logFmt ev)) ++ logSpecOut env (i + 1) k

namespace Commands

/-- Numbered output of `echo -v` (commands.cpp lines 121-126): `[%d] %s`
counting from 1. -/
def echoNumbered : Nat → List String → List Out
  | _, [] => []
  | i, w :: ws => Out.line ("[" ++ toString i ++ "] " ++ w) :: echoNumbered (i + 1) ws

/-- `Commands::echo` (commands.cpp lines 115-130). -/
def echo (argv : List String) : List Out :=
  let r := parse_options argv ["-v"]
  if "-v" ∈ r.1 then echoNumbered 1 r.2
  else [Out.line (strJoin " " r.2)]

/-- `Commands::chan` (commands.cpp lines 133-141): one `%s %s %s` line per
channel of the channel-table collaborator. -/
def chan (env : Env) : List Out :=
  env.channels.map (fun c => Out.line (c.1 ++ " " ++ c.2.1 ++ " " ++ c.2.2))

/-- The labels computed for one filter entry (commands.cpp lines 177-190). -/
def filterLabels (f : ServFilter) : List String :=
  (if f.ban then ["banned"] else []) ++
  (if f.network then ["network"] else []) ++
  (if f.direct then ["direct"] else []) ++
  (if f.priv then ["private"] else [])

/-- `%-20s`: left-justify in a field of width 20. -/
def padField (s : String) : String :=
  s ++ String.mk (List.replicate (20 - s.length) ' ')

/-- `Commands::filter` (commands.cpp lines 164-201). -/
def filter (env : Env) (argv : List String) : List Out :=
  match argv with
  | [] => [Out.line "Usage: filter show", Out.line "       filter ban TARGET"]
  | sub :: _ =>
    if sub = "show" then
      env.filters.map (fun f =>
        Out.line (padField f.pattern ++ " " ++ strJoin " " (filterLabels f)))
    else if sub = "ban" then [Out.line "not implemented yet"]
    else [Out.line ("Unknown subcommand '" ++ sub ++ "'")]

/-- `Commands::get` (commands.cpp lines 145-160): with one argument, fetch it;
a fetch failure is caught locally and written with `writeStringF` (a raw
write); the body is written with `writeString`. -/
def get (env : Env) (argv : List String) : List Out × Option String :=
  match argv with
  | [url] =>
    match env.httpGet url with
    | .error e => ([Out.str ("Error: " ++ e)], none)
    | .ok body => ([Out.str body], none)
  | _ => ([Out.line "Usage: get URL"], none)

/-- `Commands::nslookup` (commands.cpp lines 231-265).  The reverse lookup
`sys->getHostnameByAddress` is called outside any local `try`, so an
exception it throws propagates out of the handler; `sys->getIPAddresses` is
wrapped in a local `try`. -/
def nslookup (env : Env) (argv : List String) : List Out × Option String :=
  match argv with
  | [s] =>
    match env.tryParse s with
    | some ip =>
      match env.getHostnameByAddress ip with
      | .error e => ([], some e)
      | .ok (some hostname) => ([Out.line hostname], none)
      | .ok none => ([Out.line ("Error: '" ++ s ++ "' not found")], none)
    | none =>
      match env.getIPAddresses s with
      | .ok ips => (ips.map Out.line, none)
      | .error e => ([Out.line ("Error: '" ++ s ++ "' not found: " ++ e)], none)
  | _ => ([Out.line "Usage: nslookup NAME"], none)

/-- `Commands::helo` (commands.cpp lines 271-343): extract `-v`, require one
positional, then run the PCP session (an out-of-scope collaborator, supplied
by `Env.heloSession` as the events it writes plus an optional exception); the
handler's own `catch` renders that exception as an `Error:` line. -/
def helo (env : Env) (argv : List String) : List Out × Option String :=
  let r := parse_options argv ["-v"]
  match r.2 with
  | [target] =>
    let sres := env.heloSession target (decide ("-v" ∈ r.1))
    match sres.2 with
    | some e => (sres.1 ++ [Out.line ("Error: " ++ e)], none)
    | none => (sres.1, none)
  | _ => ([Out.line "Usage: helo [-v] HOST"], none)

/-- `Commands::log` (commands.cpp lines 203-229): register a listener whose
callback formats each event and enqueues it, then poll-and-drain until
cancellation.  Modelled from the spec for the parts outside `src/`: the
`Defer` of defer.h is §9's scoped cleanup (the deregistration runs exactly
once on scope exit, also when the loop exits via a thrown exception), and the
listener registry is §6's event-source interface.  `none` = the invocation
still runs after `logFuel` polls (cancellation never arrived in time). -/
def log (env : Env) (st : LogBufState) : Option LogResult :=
  let a := addListener st
  match logLoop env env.logFuel 0 [] with
  | none => none
  | some r => some ⟨r.1, r.2.1, r.2.2, removeListener a.1 a.2⟩

/-- Outcome of dispatching one named command. -/
inductive DispatchRes where
  | unknown
  | hang
  | done (outs : List Out) (err : Option String)
  deriving DecidableEq

/-- The `if/else if` dispatch chain of `Commands::system` (commands.cpp lines
91-109), with `unknown` for a name matching no branch and `hang` for a `log`
invocation that outruns its fuel. -/
def dispatchCmd (env : Env) (cmd : String) (args : List String) : DispatchRes :=
  if cmd = "log" then
    match log env env.logBuf with
    | none => .hang
    | some r => .done r.out r.err
  else if cmd = "nslookup" then
    let r := nslookup env args
    .done r.1 r.2
  else if cmd = "helo" then
    let r := helo env args
    .done r.1 r.2
  else if cmd = "filter" then .done (filter env args) none
  else if cmd = "get" then
    let r := get env args
    .done r.1 r.2
  else if cmd = "chan" then .done (chan env) none
  else if cmd = "echo" then .done (echo args) none
  else .unknown

/-- `Commands::system` (commands.cpp lines 79-113): tokenize, dispatch, and
catch any `GeneralException` raised inside the `try` (by the tokenizer or by
a handler), rendering it as one `Error: %s` line.  `none` = the invocation
never returns within the modelled fuel. -/
def system (env : Env) (cmdline : String) : Option (List Out) :=
  match command_words cmdline with
  | .error e => some [Out.line ("Error: " ++ e)]
  | .ok [] => some [Out.line "Error: Empty command line"]
  | .ok (cmd :: args) =>
    match dispatchCmd env cmd args with
    | .unknown => some [Out.line ("Error: No such command '" ++ cmd ++ "'")]
    | .hang => none
    | .done outs none => some outs
    | .done outs (some e) => some (outs ++ [Out.line ("Error: " ++ e)])

end Commands

/-- A quiescent environment: every collaborator succeeds trivially and
cancellation is already requested at the first poll. -/
def env0 : Env where
  tryParse := fun _ => none
  getHostnameByAddress := fun _ => Except.ok none
  getIPAddresses := fun _ => Except.ok []
  httpGet := fun _ => Except.ok ""
  heloSession := fun _ _ => ([], none)
  channels := []
  filters := []
  cancel := fun _ => true
  logArrive := fun _ => []
  writeFails := fun _ => none
  logFuel := 1
  logBuf := ⟨0, []⟩

/-- Schedule where one event arrives during the sleep after the first (empty)
drain and cancellation is observed at the second poll. -/
def cexLogEnv : Env :=
  { env0 with
    cancel := fun i => decide (0 < i)
    logArrive := fun i => if i = 1 then [("INFO", "E")] else []
    logFuel := 2 }

/-- Schedule of the spec's streaming test: two events enqueued before the
first drain, cancellation observed at the second poll. -/
def wEnv : Env :=
  { env0 with
    cancel := fun i => decide (0 < i)
    logArrive := fun i => if i = 0 then [("INFO", "a"), ("INFO", "b")] else []
    logFuel := 2 }

/-- Environment whose HTTP collaborator fails. -/
def getFailEnv : Env :=
  { env0 with httpGet := fun _ => Except.error "boom" }

/-- Environment whose reverse-DNS collaborator throws. -/
def nsFailEnv : Env :=
  { env0 with
    tryParse := fun _ => some "ip"
    getHostnameByAddress := fun _ => Except.error "boom2" }

/-! ## Helper lemmas -/

theorem mk_data (s : String) : String.mk s.data = s := rfl

theorem tokRun_skip_cons (c : Char) (rest word : List Char) (words : List (List Char))
    (oob : Bool) :
    tokRun (c :: rest) .skipping word words oob = tokRun (c :: rest) .outside word words oob :=
  rfl

theorem tokRun_scan :
    ∀ (l : List Char) (mode : TMode) (word : List Char) (words : List (List Char)) (oob : Bool),
      (tokRun l mode word words oob = .error "Premature end of quoted string" ↔
        modeScan mode l = .inQuote)
      ∧ (tokRun l mode word words oob = .error "Premature end of escaped character" ↔
        modeScan mode l = .afterBackslash)
      ∧ ((∃ r, tokRun l mode word words oob = .ok r) ↔ modeScan mode l = .ok) := by
  intro l
  induction l with
  | nil =>
    intro mode word words oob
    cases mode <;>
      refine ⟨?_, ?_, ?_⟩ <;>
        simp [tokRun, modeScan, specScan]
  | cons c rest ih =>
    intro mode word words oob
    cases mode with
    | outside =>
      by_cases h1 : c = ' '
      · subst h1
        have e1 : tokRun (' ' :: rest) .outside word words oob
            = tokRun rest .skipping [] (flushWord word words) oob := rfl
        have e2 : modeScan .outside (' ' :: rest) = modeScan .skipping rest := rfl
        rw [e1, e2]
        exact ih .skipping [] (flushWord word words) oob
      · by_cases h2 : c = '"'
        · subst h2
          have e1 : tokRun ('"' :: rest) .outside word words oob
              = tokRun rest .inQuote word words oob := rfl
          have e2 : modeScan .outside ('"' :: rest) = modeScan .inQuote rest := rfl
          rw [e1, e2]
          exact ih .inQuote word words oob
        · have e1 : tokRun (c :: rest) .outside word words oob
              = tokRun rest .outside (word ++ [c]) words oob := by
            simp [tokRun, h1, h2]
          have e2 : modeScan .outside (c :: rest) = modeScan .outside rest := by
            simp [modeScan, specScan, h2]
          rw [e1, e2]
          exact ih .outside (word ++ [c]) words oob
    | skipping =>
      by_cases h1 : c = ' '
      · subst h1
        have e1 : tokRun (' ' :: rest) .skipping word words oob
            = tokRun rest .skipping [] (flushWord word words) oob := rfl
        have e2 : modeScan .skipping (' ' :: rest) = modeScan .skipping rest := rfl
        rw [e1, e2]
        exact ih .skipping [] (flushWord word words) oob
      · by_cases h2 : c = '"'
        · subst h2
          have e1 : tokRun ('"' :: rest) .skipping word words oob
              = tokRun rest .inQuote word words oob := rfl
          have e2 : modeScan .skipping ('"' :: rest) = modeScan .inQuote rest := rfl
          rw [e1, e2]
          exact ih .inQuote word words oob
        · have e1 : tokRun (c :: rest) .skipping word words oob
              = tokRun rest .outside (word ++ [c]) words oob := by
            simp [tokRun, h1, h2]
          have e2 : modeScan .skipping (c :: rest) = modeScan .outside rest := by
            simp [modeScan, specScan, h2]
          rw [e1, e2]
          exact ih .outside (word ++ [c]) words oob
    | inQuote =>
      by_cases h1 : c = '\\'
      · subst h1
        have e1 : tokRun ('\\' :: rest) .inQuote word words oob
            = tokRun rest .inEscape word words oob := rfl
        have e2 : modeScan .inQuote ('\\' :: rest) = modeScan .inEscape rest := by
          cases rest <;> rfl
        rw [e1, e2]
        exact ih .inEscape word words oob
      · by_cases h2 : c = '"'
        · subst h2
          have e1 : tokRun ('"' :: rest) .inQuote word words oob
              = tokRun rest .outside [] (words ++ [word]) oob := rfl
          have e2 : modeScan .inQuote ('"' :: rest) = modeScan .outside rest := by
            show specScan ('"' :: rest) .inside = specScan rest .outside
            rw [specScan.eq_def]
            simp
          rw [e1, e2]
          exact ih .outside [] (words ++ [word]) oob
        · have e1 : tokRun (c :: rest) .inQuote word words oob
              = tokRun rest .inQuote (word ++ [c]) words oob := by
            simp [tokRun, h1, h2]
          have e2 : modeScan .inQuote (c :: rest) = modeScan .inQuote rest := by
            show specScan (c :: rest) .inside = specScan rest .inside
            rw [specScan.eq_def]
            simp [h1, h2]
          rw [e1, e2]
          exact ih .inQuote (word ++ [c]) words oob
    | inEscape =>
      have e1 : tokRun (c :: rest) .inEscape word words oob
          = tokRun rest .inQuote (word ++ [c]) words oob := rfl
      have e2 : modeScan .inEscape (c :: rest) = modeScan .inQuote rest := rfl
      rw [e1, e2]
      exact ih .inQuote (word ++ [c]) words oob

theorem command_words_error_iff (s m : String) :
    command_words s = .error m ↔ tokRun s.data .outside [] [] false = .error m := by
  unfold command_words
  cases h : tokRun s.data .outside [] [] false <;> simp

theorem command_words_ok_exists (s : String) :
    (∃ ts, command_words s = .ok ts) ↔ (∃ r, tokRun s.data .outside [] [] false = .ok r) := by
  unfold command_words
  cases h : tokRun s.data .outside [] [] false <;> simp

theorem tokRun_plain_app :
    ∀ (cs : List Char), (∀ c ∈ cs, c ≠ ' ' ∧ c ≠ '"') →
      ∀ (rest word : List Char) (words : List (List Char)) (oob : Bool),
        tokRun (cs ++ rest) .outside word words oob
          = tokRun rest .outside (word ++ cs) words oob := by
  intro cs
  induction cs with
  | nil =>
    intro _ rest word words oob
    simp
  | cons c cs ih =>
    intro h rest word words oob
    obtain ⟨h1, h2⟩ := h c (List.mem_cons_self _ _)
    have e1 : tokRun ((c :: cs) ++ rest) .outside word words oob
        = tokRun (cs ++ rest) .outside (word ++ [c]) words oob := by
      simp [tokRun, h1, h2]
    rw [e1, ih (fun x hx => h x (List.mem_cons_of_mem _ hx)) rest (word ++ [c]) words oob]
    have e2 : (word ++ [c]) ++ cs = word ++ c :: cs := by simp
    rw [e2]

theorem tokRun_plain_tail (cs : List Char) (h : ∀ c ∈ cs, c ≠ ' ' ∧ c ≠ '"')
    (word : List Char) (words : List (List Char)) (oob : Bool) :
    tokRun cs .outside word words oob = .ok (flushWord (word ++ cs) words, oob) := by
  have e := tokRun_plain_app cs h [] word words oob
  rw [List.append_nil] at e
  rw [e]
  rfl

theorem tokRun_quoted_app :
    ∀ (b : List Char), (∀ c ∈ b, c ≠ '\\' ∧ c ≠ '"') →
      ∀ (rest word : List Char) (words : List (List Char)) (oob : Bool),
        tokRun (b ++ '"' :: rest) .inQuote word words oob
          = tokRun rest .outside [] (words ++ [word ++ b]) oob := by
  intro b
  induction b with
  | nil =>
    intro _ rest word words oob
    have e1 : tokRun ([] ++ '"' :: rest) .inQuote word words oob
        = tokRun rest .outside [] (words ++ [word]) oob := rfl
    rw [e1]
    simp
  | cons c b ih =>
    intro h rest word words oob
    obtain ⟨h1, h2⟩ := h c (List.mem_cons_self _ _)
    have e1 : tokRun ((c :: b) ++ '"' :: rest) .inQuote word words oob
        = tokRun (b ++ '"' :: rest) .inQuote (word ++ [c]) words oob := by
      simp [tokRun, h1, h2]
    rw [e1, ih (fun x hx => h x (List.mem_cons_of_mem _ hx)) rest (word ++ [c]) words oob]
    have e2 : (word ++ [c]) ++ b = word ++ c :: b := by simp
    rw [e2]

theorem tokRun_join :
    ∀ (wts : List (List Char)), wts ≠ [] →
      (∀ w ∈ wts, w ≠ [] ∧ ∀ c ∈ w, c ≠ ' ' ∧ c ≠ '"') →
      ∀ words : List (List Char),
        tokRun (joinChars wts) .outside [] words false = .ok (words ++ wts, false) := by
  intro wts
  induction wts with
  | nil => intro h; exact absurd rfl h
  | cons w wts ih =>
    intro _ hplain words
    obtain ⟨hw, hwc⟩ := hplain w (List.mem_cons_self _ _)
    cases wts with
    | nil =>
      have e1 : joinChars [w] = w := rfl
      rw [e1, tokRun_plain_tail w hwc [] words false]
      simp [flushWord, hw]
    | cons w2 wts2 =>
      have e1 : joinChars (w :: w2 :: wts2) = w ++ ' ' :: joinChars (w2 :: wts2) := rfl
      rw [e1, tokRun_plain_app w hwc _ [] words false]
      have e2 : tokRun (' ' :: joinChars (w2 :: wts2)) .outside ([] ++ w) words false
          = tokRun (joinChars (w2 :: wts2)) .skipping [] (flushWord ([] ++ w) words) false := rfl
      rw [e2]
      obtain ⟨hw2, _⟩ := hplain w2 (by simp)
      obtain ⟨c0, l0, hc⟩ : ∃ c0 l0, joinChars (w2 :: wts2) = c0 :: l0 := by
        cases w2 with
        | nil => exact absurd rfl hw2
        | cons c0 w2' => cases wts2 <;> exact ⟨c0, _, rfl⟩
      rw [hc, tokRun_skip_cons, ← hc]
      have hflush : flushWord ([] ++ w) words = words ++ [w] := by simp [flushWord, hw]
      rw [hflush, ih (by simp) (fun x hx => hplain x (List.mem_cons_of_mem _ hx)) (words ++ [w])]
      simp

theorem data_append (a b : String) : (a ++ b).data = a.data ++ b.data :=
  String.data_append a b

theorem strJoin_data : ∀ ts : List String, (strJoin " " ts).data = joinChars (ts.map String.data) := by
  intro ts
  induction ts with
  | nil => rfl
  | cons t ts ih =>
    cases ts with
    | nil => rfl
    | cons t2 ts2 =>
      show (t ++ " " ++ strJoin " " (t2 :: ts2)).data
          = t.data ++ ' ' :: joinChars ((t2 :: ts2).map String.data)
      rw [data_append, data_append, ih]
      simp

theorem insertFlag_mem (o : List String) (k s : String) :
    s ∈ insertFlag o k ↔ s ∈ o ∨ s = k := by
  by_cases hk : k ∈ o
  · simp only [insertFlag, if_pos hk]
    constructor
    · exact fun h => Or.inl h
    · rintro (h | rfl)
      · exact h
      · exact hk
  · simp [insertFlag, if_neg hk]

theorem parse_options_no_terminator (option_names : List String) :
    ∀ args : List String, "--" ∉ args →
      (parse_options args option_names).2 = args.filter (fun t => decide (t ∉ option_names))
      ∧ ∀ s, s ∈ (parse_options args option_names).1 ↔ (s ∈ args ∧ s ∈ option_names) := by
  intro args
  induction args with
  | nil =>
    intro _
    refine ⟨rfl, ?_⟩
    intro s
    simp [parse_options]
  | cons a rest ih =>
    intro h
    have ha : a ≠ "--" := by
      intro hc
      exact h (by simp [hc])
    have hrest : "--" ∉ rest := by
      intro hc
      exact h (by simp [hc])
    obtain ⟨ihp, ihf⟩ := ih hrest
    by_cases hmem : a ∈ option_names
    · refine ⟨?_, ?_⟩
      · simp only [parse_options, if_neg ha, if_pos hmem]
        rw [List.filter_cons]
        have hd : decide (a ∉ option_names) = false := by simp [hmem]
        rw [hd]
        simpa using ihp
      · intro s
        simp only [parse_options, if_neg ha, if_pos hmem]
        rw [insertFlag_mem, ihf s]
        constructor
        · rintro (⟨hs1, hs2⟩ | rfl)
          · exact ⟨List.mem_cons_of_mem _ hs1, hs2⟩
          · exact ⟨List.mem_cons_self _ _, hmem⟩
        · rintro ⟨hs1, hs2⟩
          rcases List.mem_cons.mp hs1 with rfl | hs1
          · exact Or.inr rfl
          · exact Or.inl ⟨hs1, hs2⟩
    · refine ⟨?_, ?_⟩
      · simp only [parse_options, if_neg ha, if_neg hmem]
        rw [List.filter_cons]
        have hd : decide (a ∉ option_names) = true := by simp [hmem]
        rw [hd]
        simpa using ihp
      · intro s
        simp only [parse_options, if_neg ha, if_neg hmem]
        rw [ihf s]
        constructor
        · rintro ⟨hs1, hs2⟩
          exact ⟨List.mem_cons_of_mem _ hs1, hs2⟩
        · rintro ⟨hs1, hs2⟩
          rcases List.mem_cons.mp hs1 with rfl | hs1
          · exact absurd hs2 hmem
          · exact ⟨hs1, hs2⟩

theorem parse_options_terminator (option_names : List String) :
    ∀ pre post : List String, "--" ∉ pre →
      (parse_options (pre ++ "--" :: post) option_names).2 =
        pre.filter (fun t => decide (t ∉ option_names)) ++ post
      ∧ ∀ s, s ∈ (parse_options (pre ++ "--" :: post) option_names).1 ↔
        (s ∈ pre ∧ s ∈ option_names) := by
  intro pre
  induction pre with
  | nil =>
    intro post _
    refine ⟨?_, ?_⟩
    · simp [parse_options]
    · intro s
      simp [parse_options]
  | cons a pre ih =>
    intro post h
    have ha : a ≠ "--" := by
      intro hc
      exact h (by simp [hc])
    have hpre : "--" ∉ pre := by
      intro hc
      exact h (by simp [hc])
    obtain ⟨ihp, ihf⟩ := ih post hpre
    by_cases hmem : a ∈ option_names
    · refine ⟨?_, ?_⟩
      · simp only [List.cons_append, parse_options, if_neg ha, if_pos hmem, List.append_eq]
        rw [List.filter_cons]
        have hd : decide (a ∉ option_names) = false := by simp [hmem]
        rw [hd]
        simpa using ihp
      · intro s
        simp only [List.cons_append, parse_options, if_neg ha, if_pos hmem, List.append_eq]
        rw [insertFlag_mem, ihf s]
        constructor
        · rintro (⟨hs1, hs2⟩ | rfl)
          · exact ⟨List.mem_cons_of_mem _ hs1, hs2⟩
          · exact ⟨List.mem_cons_self _ _, hmem⟩
        · rintro ⟨hs1, hs2⟩
          rcases List.mem_cons.mp hs1 with rfl | hs1
          · exact Or.inr rfl
          · exact Or.inl ⟨hs1, hs2⟩
    · refine ⟨?_, ?_⟩
      · simp only [List.cons_append, parse_options, if_neg ha, if_neg hmem, List.append_eq]
        rw [List.filter_cons]
        have hd : decide (a ∉ option_names) = true := by simp [hmem]
        rw [hd]
        simpa using ihp
      · intro s
        simp only [List.cons_append, parse_options, if_neg ha, if_neg hmem, List.append_eq]
        rw [ihf s]
        constructor
        · rintro ⟨hs1, hs2⟩
          exact ⟨List.mem_cons_of_mem _ hs1, hs2⟩
        · rintro ⟨hs1, hs2⟩
          rcases List.mem_cons.mp hs1 with rfl | hs1
          · exact absurd hs2 hmem
          · exact ⟨hs1, hs2⟩

theorem drainQueue_nofail (writeFails : String → Option String)
    (h : ∀ c, writeFails c = none) :
    ∀ q : List String, drainQueue writeFails q = (q.map Out.str, [], none) := by
  intro q
  induction q with
  | nil => rfl
  | cons c rest ih => simp [drainQueue, h c, ih]

theorem logLoop_run :
    ∀ (k : Nat) (env : Env) (i fuel : Nat),
      (∀ j, j < k → env.cancel (i + j) = false) →
      env.cancel (i + k) = true →
      (∀ c, env.writeFails c = none) →
      k < fuel →
      logLoop env fuel i [] =
        some (logSpecOut env i k, (env.logArrive (i + k)).map logFmt, none) := by
  intro k
  induction k with
  | zero =>
    intro env i fuel _ htrue hwf hfuel
    cases fuel with
    | zero => omega
    | succ f =>
      have hi : env.cancel i = true := by simpa using htrue
      simp [logLoop, hi, logSpecOut]
  | succ k ih =>
    intro env i fuel hfalse htrue hwf hfuel
    cases fuel with
    | zero => omega
    | succ f =>
      have hc0 : env.cancel i = false := by simpa using hfalse 0 (Nat.succ_pos k)
      have hrec := ih env (i + 1) f ?h1 ?h2 hwf (by omega)
      case h1 =>
        intro j hj
        have := hfalse (j + 1) (by omega)
        rwa [show i + (j + 1) = i + 1 + j from by omega] at this
      case h2 =>
        rwa [show i + (k + 1) = i + 1 + k from by omega] at htrue
      simp only [logLoop, hc0, Bool.false_eq_true, if_false,
        drainQueue_nofail env.writeFails hwf, List.nil_append, hrec]
      rw [show i + 1 + k = i + (k + 1) from by omega]
      simp [logSpecOut, List.map_map, Function.comp]

theorem map_mk_data : ∀ l : List String, (l.map String.data).map String.mk = l := by
  intro l
  induction l with
  | nil => rfl
  | cons t l ih => simp [mk_data, ih]

/-! ## Claim theorems -/

/-- Claim C5: tokenization fails exactly when end-of-input is reached inside a
quoted region (message "Premature end of quoted string") or immediately after
a backslash escape inside a quoted region (message "Premature end of escaped
character"), where "inside a quoted region" is the spec's own scanner
`specScan`; on failure the `Except.error` result carries no partial token
sequence; and dispatching `get "http://x` writes exactly one line
`Error: Premature end of quoted string` whatever the environment. -/
theorem tokenizer_failure_characterization :
    (∀ s : String,
      (command_words s = .error "Premature end of quoted string" ↔
        specScan s.data .outside = .inQuote)
      ∧ (command_words s = .error "Premature end of escaped character" ↔
        specScan s.data .outside = .afterBackslash)
      ∧ ((∃ ts, command_words s = .ok ts) ↔ specScan s.data .outside = .ok))
    ∧ (∀ env : Env, Commands.system env "get \"http://x" =
        some [Out.line "Error: Premature end of quoted string"]) := by
  constructor
  · intro s
    have h := tokRun_scan s.data .outside [] [] false
    refine ⟨?_, ?_, ?_⟩
    · rw [command_words_error_iff]
      exact h.1
    · rw [command_words_error_iff]
      exact h.2.1
    · rw [command_words_ok_exists]
      exact h.2.2
  · intro env
    rfl

/-- Witness for C5: `"x` ends inside a quoted region, so tokenization fails
with the quoted-string message, and the dispatched unterminated-quote line
produces exactly the one error line. -/
theorem tokenizer_failure_witness :
    command_words "\"x" = Except.error "Premature end of quoted string"
    ∧ Commands.system env0 "get \"http://x" =
        some [Out.line "Error: Premature end of quoted string"] :=
  ⟨(tokenizer_failure_characterization.1 "\"x").1.mpr (by decide),
   tokenizer_failure_characterization.2 env0⟩

/-- Claim C6: `parse_options` scans left to right; at the first `--` it stops
and appends every later token verbatim to the positionals (not `--` itself,
and without flag-checking them); before `--`, a token in the recognized set
becomes a flag (and not a positional) and every other token a positional, in
order. -/
theorem parse_options_split_correct :
    (∀ (option_names pre post : List String), "--" ∉ pre →
      (parse_options (pre ++ "--" :: post) option_names).2 =
        pre.filter (fun t => decide (t ∉ option_names)) ++ post
      ∧ ∀ s, s ∈ (parse_options (pre ++ "--" :: post) option_names).1 ↔
          (s ∈ pre ∧ s ∈ option_names))
    ∧ (∀ (option_names args : List String), "--" ∉ args →
      (parse_options args option_names).2 = args.filter (fun t => decide (t ∉ option_names))
      ∧ ∀ s, s ∈ (parse_options args option_names).1 ↔ (s ∈ args ∧ s ∈ option_names)) :=
  ⟨fun option_names pre post h => parse_options_terminator option_names pre post h,
   fun option_names args h => parse_options_no_terminator option_names args h⟩

/-- Witness for C6 at `["x", "-v", "--", "-v", "y"]` with recognized flag
`-v`: the `-v` before `--` becomes a flag, the one after it stays a
positional. -/
theorem parse_options_split_witness :
    (parse_options ["x", "-v", "--", "-v", "y"] ["-v"]).2 =
      ["x", "-v"].filter (fun t => decide (t ∉ (["-v"] : List String))) ++ ["-v", "y"]
    ∧ ∀ s, s ∈ (parse_options ["x", "-v", "--", "-v", "y"] ["-v"]).1 ↔
        (s ∈ ["x", "-v"] ∧ s ∈ (["-v"] : List String)) :=
  parse_options_split_correct.1 ["-v"] ["x", "-v"] ["-v", "y"] (by decide)

/-- Claim C7: `nslookup` and `get` with a positional count other than 1, and
`helo` with a positional count other than 1 after extracting `-v`, write
exactly the documented usage line and return normally; the result does not
depend on the environment, so no external call is observable. -/
theorem usage_line_on_bad_arity :
    (∀ (env : Env) (argv : List String), argv.length ≠ 1 →
      Commands.nslookup env argv = ([Out.line "Usage: nslookup NAME"], none))
    ∧ (∀ (env : Env) (argv : List String), argv.length ≠ 1 →
      Commands.get env argv = ([Out.line "Usage: get URL"], none))
    ∧ (∀ (env : Env) (argv : List String), (parse_options argv ["-v"]).2.length ≠ 1 →
      Commands.helo env argv = ([Out.line "Usage: helo [-v] HOST"], none)) := by
  refine ⟨?_, ?_, ?_⟩
  · intro env argv h
    rcases argv with _ | ⟨a, _ | ⟨b, t⟩⟩
    · rfl
    · exact absurd rfl h
    · rfl
  · intro env argv h
    rcases argv with _ | ⟨a, _ | ⟨b, t⟩⟩
    · rfl
    · exact absurd rfl h
    · rfl
  · intro env argv h
    rcases hp : (parse_options argv ["-v"]).2 with _ | ⟨t, ts⟩
    · simp [Commands.helo, hp]
    · rcases ts with _ | ⟨u, us⟩
      · rw [hp] at h
        exact absurd rfl h
      · simp [Commands.helo, hp]

/-- Witness for C7: all three handlers, invoked with zero positionals, write
their usage line. -/
theorem usage_line_witness :
    Commands.nslookup env0 [] = ([Out.line "Usage: nslookup NAME"], none)
    ∧ Commands.get env0 [] = ([Out.line "Usage: get URL"], none)
    ∧ Commands.helo env0 [] = ([Out.line "Usage: helo [-v] HOST"], none) :=
  ⟨usage_line_on_bad_arity.1 env0 [] (by decide),
   usage_line_on_bad_arity.2.1 env0 [] (by decide),
   usage_line_on_bad_arity.2.2 env0 [] (by decide)⟩

/-- Claim C8 (amended): for every command-line string that tokenizes
successfully and whose tokens are all nonempty and free of characters needing
quoting (space, double quote), joining the tokens with single spaces and
retokenizing yields the same token sequence.  (The nonemptiness condition is
forced: the empty token produced by `""` vanishes on rejoining, see the
counterexample.) -/
theorem tokenize_join_roundtrip :
    ∀ (s : String) (ts : List String),
      command_words s = .ok ts →
      (∀ t ∈ ts, t ≠ "" ∧ ∀ ch ∈ t.data, ch ≠ ' ' ∧ ch ≠ '"') →
      command_words (strJoin " " ts) = .ok ts := by
  intro s ts _ hplain
  cases ts with
  | nil => rfl
  | cons t ts' =>
    unfold command_words
    rw [strJoin_data]
    rw [tokRun_join ((t :: ts').map String.data) (by simp) ?hp []]
    · simp only [List.nil_append, map_mk_data]
    case hp =>
      intro w hw
      obtain ⟨t', ht', rfl⟩ := List.mem_map.mp hw
      obtain ⟨h1, h2⟩ := hplain t' ht'
      refine ⟨?_, h2⟩
      intro hnil
      exact h1 (String.ext hnil)

/-- Counterexample for C8 as stated: `""` is balanced and correctly escaped
and its single token, being empty, contains no character needing escaping or
quoting; yet rejoining and retokenizing loses the token. -/
theorem empty_token_roundtrip_cex :
    command_words "\"\"" = .ok [""]
    ∧ strJoin " " [""] = ""
    ∧ command_words "" = .ok ([] : List String)
    ∧ ([""] : List String) ≠ [] :=
  ⟨rfl, rfl, rfl, by decide⟩

/-- Witness for C8: the tokens of `a b` round-trip. -/
theorem tokenize_join_roundtrip_witness :
    command_words (strJoin " " ["a", "b"]) = .ok ["a", "b"] :=
  tokenize_join_roundtrip "a b" ["a", "b"] rfl (by decide)

/-- Claim C4 (amended): every matching unescaped closing quote immediately
flushes the current token, so a quoted segment is never concatenated with the
unquoted characters that follow it — but the unquoted characters immediately
preceding the opening quote in the same word are concatenated into the token
flushed at the closing quote: a word `a"b"c` yields the two tokens `ab` and
`c`. -/
theorem quoted_segment_split :
    ∀ (a b c : List Char),
      (∀ x ∈ a, x ≠ ' ' ∧ x ≠ '"') →
      (∀ x ∈ b, x ≠ '\\' ∧ x ≠ '"') →
      (∀ x ∈ c, x ≠ ' ' ∧ x ≠ '"') →
      command_words (String.mk (a ++ ('"' :: (b ++ '"' :: c)))) =
        .ok (if c = [] then [String.mk (a ++ b)]
             else [String.mk (a ++ b), String.mk c]) := by
  intro a b c ha hb hc
  unfold command_words
  rw [show (String.mk (a ++ ('"' :: (b ++ '"' :: c)))).data
      = a ++ ('"' :: (b ++ '"' :: c)) from rfl]
  rw [tokRun_plain_app a ha ('"' :: (b ++ '"' :: c)) [] [] false]
  rw [show tokRun ('"' :: (b ++ '"' :: c)) .outside ([] ++ a) [] false
      = tokRun (b ++ '"' :: c) .inQuote ([] ++ a) [] false from rfl]
  rw [tokRun_quoted_app b hb c ([] ++ a) [] false]
  cases c with
  | nil =>
    simp [tokRun, flushWord]
  | cons c0 cs =>
    rw [tokRun_plain_tail (c0 :: cs) hc [] ([] ++ [([] ++ a) ++ b]) false]
    simp [flushWord]

/-- Counterexample for C4 as stated: in `a"b"c` the quoted segment `b` IS
concatenated with the adjacent unquoted character `a` that precedes it — the
first emitted token is `ab`, not `b`. -/
theorem quoted_segment_concat_cex :
    command_words "a\"b\"c" = .ok ["ab", "c"] ∧ ("ab" : String) ≠ "b" :=
  ⟨rfl, by decide⟩

/-- Witness for C4: the amended claim evaluated at `a"b"c`. -/
theorem quoted_segment_split_witness :
    command_words (String.mk (['a'] ++ ('"' :: (['b'] ++ '"' :: ['c']))))
      = .ok [String.mk (['a'] ++ ['b']), String.mk ['c']] :=
  quoted_segment_split ['a'] ['b'] ['c'] (by decide) (by decide) (by decide)

/-- Claim C10: the space-skipping `do { p++ } while (*p == ' ')` loop of
`command_words` dereferences `cmdline.end()` exactly on inputs ending in a
space: on `"a "` the out-of-bounds branch IS reached (the flag is true) even
though the token result is the expected `["a"]`; on `"a b"` it is not. -/
theorem space_skip_oob :
    command_words_oob "a " = true
    ∧ command_words "a " = .ok ["a"]
    ∧ command_words_oob "a b" = false :=
  ⟨rfl, rfl, rfl⟩

/-- Claim C2: for every input line the dispatch boundary writes exactly the
documented error text and returns normally: a tokenization failure yields one
line `Error: <tokenizer message>`; an empty token sequence one line
`Error: Empty command line`; a first token outside the fixed case-sensitive
mapping one line `Error: No such command '<name>'`; and a domain exception
raised by the invoked handler is caught here and rendered as
`Error: <message>` after the handler's own output. -/
theorem system_error_reporting :
    (∀ (env : Env) (line m : String),
      command_words line = .error m →
      Commands.system env line = some [Out.line ("Error: " ++ m)])
    ∧ (∀ (env : Env) (line : String),
      command_words line = .ok [] →
      Commands.system env line = some [Out.line "Error: Empty command line"])
    ∧ (∀ (env : Env) (line cmd : String) (args : List String),
      command_words line = .ok (cmd :: args) →
      cmd ∉ ["log", "nslookup", "helo", "filter", "get", "chan", "echo"] →
      Commands.system env line = some [Out.line ("Error: No such command '" ++ cmd ++ "'")])
    ∧ (∀ (env : Env) (line cmd : String) (args : List String) (outs : List Out) (e : String),
      command_words line = .ok (cmd :: args) →
      Commands.dispatchCmd env cmd args = .done outs (some e) →
      Commands.system env line = some (outs ++ [Out.line ("Error: " ++ e)])) := by
  refine ⟨?_, ?_, ?_, ?_⟩
  · intro env line m h
    simp [Commands.system, h]
  · intro env line h
    simp [Commands.system, h]
  · intro env line cmd args hw hmem
    simp only [List.mem_cons, List.mem_singleton, not_or] at hmem
    obtain ⟨h1, h2, h3, h4, h5, h6, h7, -⟩ := hmem
    simp [Commands.system, hw, Commands.dispatchCmd, h1, h2, h3, h4, h5, h6, h7]
  · intro env line cmd args outs e hw hd
    simp [Commands.system, hw, hd]

/-- Witness for C2: `nslookup h` in an environment whose reverse-DNS
collaborator throws `boom2` — the exception escapes the handler (its call is
outside the handler's local `try`) and the boundary renders it. -/
theorem system_error_reporting_witness :
    Commands.system nsFailEnv "nslookup h" = some ([] ++ [Out.line ("Error: " ++ "boom2")]) :=
  system_error_reporting.2.2.2 nsFailEnv "nslookup h" "nslookup" ["h"] [] "boom2" rfl rfl

/-- Claim C3: on every terminating run of the `log` handler — cancellation
observed, or an exception thrown out of the drain loop by a failing write —
the listener registered on entry is deregistered by the scope-exit cleanup,
and the subscription list (hence its count) returns to its pre-invocation
value.  The freshness hypothesis is the registry's invariant that ids already
registered are older than `nextId`. -/
theorem log_listener_cleanup :
    ∀ (env : Env) (st : LogBufState) (r : LogResult),
      (∀ i ∈ st.listeners, i < st.nextId) →
      Commands.log env st = some r →
      r.buf.listeners = st.listeners
      ∧ r.buf.listeners.length = st.listeners.length := by
  intro env st r hfresh hrun
  have hnm : st.nextId ∉ st.listeners := fun hm => absurd (hfresh _ hm) (lt_irrefl _)
  have hbuf : r.buf = removeListener st.nextId ⟨st.nextId + 1, st.listeners ++ [st.nextId]⟩ := by
    simp only [Commands.log] at hrun
    rcases hl : logLoop env env.logFuel 0 [] with _ | r0
    · rw [hl] at hrun
      exact Option.noConfusion hrun
    · rw [hl] at hrun
      simp only [Option.some.injEq] at hrun
      rw [← hrun]
      rfl
  have he : (st.listeners ++ [st.nextId]).erase st.nextId = st.listeners := by
    rw [List.erase_append_right _ hnm]
    simp
  have hl2 : r.buf.listeners = st.listeners := by
    rw [hbuf]
    exact he
  exact ⟨hl2, by rw [hl2]⟩

/-- Witness for C3: a run under `env0` (cancellation already requested at the
first poll) on an empty registry; the registry is unchanged afterwards. -/
theorem log_listener_cleanup_witness :
    (⟨[], [], none, ⟨1, []⟩⟩ : LogResult).buf.listeners = (⟨0, []⟩ : LogBufState).listeners
    ∧ (⟨[], [], none, ⟨1, []⟩⟩ : LogResult).buf.listeners.length
        = (⟨0, []⟩ : LogBufState).listeners.length :=
  log_listener_cleanup env0 ⟨0, []⟩ ⟨[], [], none, ⟨1, []⟩⟩ (by simp) rfl

/-- Claim C1 (amended): when cancellation first becomes true at poll `k` and
no write fails, the handler writes exactly the event chunks enqueued before
each of its `k` drains, in enqueue order (`logSpecOut`), deregisters its
listener, and returns; the chunks that arrive after the last drain (bucket
`k`) are still in the queue at deregistration and are dropped, not written —
the code takes the spec's explicitly allowed drop-the-final-partial-batch
choice.  In particular N events enqueued before the first drain, with
cancellation arriving only after that drain, are all written in order. -/
theorem log_drain_all_before_cancel :
    ∀ (env : Env) (st : LogBufState) (k : Nat),
      (∀ j, j < k → env.cancel j = false) →
      env.cancel k = true →
      (∀ c, env.writeFails c = none) →
      k < env.logFuel →
      Commands.log env st = some ⟨logSpecOut env 0 k, (env.logArrive k).map logFmt, none,
        removeListener st.nextId ⟨st.nextId + 1, st.listeners ++ [st.nextId]⟩⟩ := by
  intro env st k h1 h2 h3 h4
  have hrun := logLoop_run k env 0 env.logFuel ?hf ?ht h3 h4
  case hf =>
    intro j hj
    rw [Nat.zero_add]
    exact h1 j hj
  case ht =>
    rw [Nat.zero_add]
    exact h2
  rw [Nat.zero_add] at hrun
  simp only [Commands.log, hrun]
  rfl

/-- Counterexample for C1 as stated: one event is enqueued by the callback
during the sleep after the first (empty) drain; cancellation is observed at
the next poll and the loop exits without draining again, so the chunk —
enqueued before the listener was deregistered — is still in the queue
(`leftover`) and was never written (`out = []`). -/
theorem log_final_batch_dropped :
    Commands.log cexLogEnv ⟨0, []⟩ = some ⟨[], ["[INFO] E\n"], none, ⟨1, []⟩⟩ :=
  rfl

/-- Witness for C1: the spec's streaming scenario — two events enqueued
before the first drain, cancellation set afterwards: both are written in
enqueue order before the handler returns, and the listener is removed. -/
theorem log_drain_witness :
    Commands.log wEnv ⟨0, []⟩ =
      some ⟨[Out.str "[INFO] a\n", Out.str "[INFO] b\n"], [], none, ⟨1, []⟩⟩ :=
  log_drain_all_before_cancel wEnv ⟨0, []⟩ 1
    (by
      intro j hj
      have hj0 : j = 0 := by omega
      subst hj0
      rfl)
    rfl (fun _ => rfl) (by decide)

/-- Claim C9 (amended): every modelled error is rendered with the text prefix
`Error: ` and leaves the session alive (the invocation returns normally);
dispatch-boundary errors are single line-oriented writes; but the `get`
handler's locally caught fetch failure is written with `writeStringF` — a raw
write that appends no line terminator — not a line-oriented write. -/
theorem error_text_contract :
    (∀ (env : Env) (url e : String),
      env.httpGet url = .error e →
      Commands.get env [url] = ([Out.str ("Error: " ++ e)], none))
    ∧ (∀ (env : Env) (line url e : String),
      command_words line = .ok ["get", url] →
      env.httpGet url = .error e →
      Commands.system env line = some [Out.str ("Error: " ++ e)])
    ∧ (∀ (env : Env) (line m : String),
      command_words line = .error m →
      Commands.system env line = some [Out.line ("Error: " ++ m)]) := by
  refine ⟨?_, ?_, ?_⟩
  · intro env url e h
    simp [Commands.get, h]
  · intro env line url e hw h
    simp [Commands.system, hw, Commands.dispatchCmd, Commands.get, h]
  · intro env line m h
    simp [Commands.system, h]

/-- Counterexample for C9 as stated: the fetch failure of `get http://x` is
written as the raw event `Out.str "Error: boom"`, which is not a
line-oriented write. -/
theorem get_error_raw_write_cex :
    Commands.system getFailEnv "get http://x" = some [Out.str "Error: boom"]
    ∧ Out.str "Error: boom" ≠ Out.line "Error: boom" :=
  ⟨rfl, by decide⟩

/-- Witness for C9: the get handler's rendering of a failed fetch. -/
theorem error_text_contract_witness :
    Commands.get getFailEnv ["u"] = ([Out.str ("Error: " ++ "boom")], none) :=
  error_text_contract.1 getFailEnv "u" "boom" rfl
